import Mathlib

/-!
Verification of the Concentration (memory match) game and its leaderboard
service.  The client logic is embedded from `src/App.tsx`, the server logic
from `server/index.js`.  JavaScript numbers are modelled as `ℚ` where the
code manipulates arbitrary numbers, as `Nat` where the code only ever holds
non-negative integer counters, and ISO-8601 timestamp strings (whose
lexicographic order coincides with chronological order) as `Int`
milliseconds since the epoch.
-/

namespace Concentration

/-- A card of the deck, from the `Card` type of `App.tsx`. -/
structure Card where
  id : String
  pairId : String
  content : String
  matched : Bool
deriving DecidableEq

/-- `[a[i], a[j]] = [a[j], a[i]]` inside the Fisher-Yates loop of `shuffle`:
a simultaneous swap of positions `i` and `j` (out-of-range indices leave the
list unchanged; the loop below only produces in-range ones). -/
def listSwap {α : Type} (l : List α) (i j : Nat) : List α :=
  match l[i]?, l[j]? with
  | some x, some y => (l.set i y).set j x
  | _, _ => l

/-- The loop of `shuffle` in `App.tsx`: for `i` from `a.length - 1` down to
`1`, pick `j = Math.floor(Math.random() * (i + 1))` and swap `a[i]` with
`a[j]`.  The stream of random draws is abstracted by `rand`, reduced modulo
`i + 1` so that `j ≤ i` exactly as `Math.floor(Math.random() * (i+1))`
guarantees. -/
def shuffleAux {α : Type} (rand : Nat → Nat) : Nat → List α → List α
  | 0, l => l
  | i + 1, l => shuffleAux rand i (listSwap l (i + 1) (rand (i + 1) % (i + 2)))

/-- `shuffle` from `App.tsx` (Fisher-Yates on a copy of the input). -/
def shuffle {α : Type} (rand : Nat → Nat) (arr : List α) : List α :=
  shuffleAux rand (arr.length - 1) arr

theorem set_set_swap_perm {α : Type} [DecidableEq α] (l : List α) (i j : Nat)
    (hi : i < l.length) (hj : j < l.length) :
    ((l.set i (l[j])).set j (l[i])).Perm l := by
  rw [List.perm_iff_count]
  intro a
  have hj2 : j < (l.set i (l[j])).length := by simpa using hj
  have hset : (l.set i (l[j]))[j] = l[j] := by
    rw [List.getElem_set]
    split <;> rfl
  rw [List.count_set _ _ _ _ hj2, List.count_set _ _ _ _ hi, hset]
  have hle := List.boole_getElem_le_count a l i hi
  omega

theorem listSwap_perm {α : Type} [DecidableEq α] (l : List α) (i j : Nat) :
    (listSwap l i j).Perm l := by
  unfold listSwap
  cases hi : l[i]? with
  | none => exact List.Perm.refl l
  | some x =>
    cases hj : l[j]? with
    | none => exact List.Perm.refl l
    | some y =>
      obtain ⟨hi', hxi⟩ := List.getElem?_eq_some_iff.mp hi
      obtain ⟨hj', hyj⟩ := List.getElem?_eq_some_iff.mp hj
      rw [← hxi, ← hyj]
      exact set_set_swap_perm l i j hi' hj'

theorem shuffleAux_perm {α : Type} [DecidableEq α] (rand : Nat → Nat) (n : Nat) (l : List α) :
    (shuffleAux rand n l).Perm l := by
  induction n generalizing l with
  | zero => exact List.Perm.refl l
  | succ i ih =>
      exact (ih _).trans (listSwap_perm l (i + 1) (rand (i + 1) % (i + 2)))

theorem shuffle_perm {α : Type} [DecidableEq α] (rand : Nat → Nat) (arr : List α) :
    (shuffle rand arr).Perm arr :=
  shuffleAux_perm rand (arr.length - 1) arr

/-- `EMOJI_POOL` from `App.tsx`: the 28 available glyphs. -/
def EMOJI_POOL : List String :=
  ["🍎", "🍌", "🍇", "🍓", "🥑", "🍒", "🍋", "🍉", "🥕", "🍆", "🍍", "🥥",
   "🥝", "🌽", "🥦", "🍑", "🍐", "🍊", "🍔", "🍕", "🍩", "🍪", "🍫", "🍿",
   "🍰", "🍯", "🧀", "🥨"]

theorem EMOJI_POOL_length : EMOJI_POOL.length = 28 := rfl

theorem EMOJI_POOL_nodup : EMOJI_POOL.Nodup := by decide

/-- The pair identity `` `p${idx}` `` given to the `idx`-th drawn glyph. -/
def pidStr (idx : Nat) : String := "p" ++ Nat.repr idx

/-- The first card of pair `idx` (`id = pairId + 'a'`). -/
def cardA (idx : Nat) (emoji : String) : Card :=
  { id := pidStr idx ++ "a", pairId := pidStr idx, content := emoji, matched := false }

/-- The second card of pair `idx` (`id = pairId + 'b'`). -/
def cardB (idx : Nat) (emoji : String) : Card :=
  { id := pidStr idx ++ "b", pairId := pidStr idx, content := emoji, matched := false }

/-- The `pool.flatMap((emoji, idx) => [a, b])` of `generateDeck`, written as
a recursion carrying the running index `idx`. -/
def mkPairs (pool : List String) (idx : Nat) : List Card :=
  match pool with
  | [] => []
  | emoji :: rest => cardA idx emoji :: cardB idx emoji :: mkPairs rest (idx + 1)

/-- `generateDeck` from `App.tsx`.  The two `shuffle` calls draw from
`Math.random`; their random streams are abstracted as `r1` and `r2`. -/
def generateDeck (r1 r2 : Nat → Nat) (pairs : Nat) : List Card :=
  let pool := (shuffle r1 EMOJI_POOL).take pairs
  shuffle r2 (mkPairs pool 0)

theorem pidStr_inj : ∀ i < 29, ∀ j < 29, pidStr i = pidStr j → i = j := by decide

theorem cardId_inj :
    ∀ i < 29, ∀ j < 29, ∀ a : Bool, ∀ b : Bool,
      pidStr i ++ (if a then "a" else "b") = pidStr j ++ (if b then "a" else "b") →
        i = j ∧ a = b := by decide

theorem mem_mkPairs {pool : List String} {idx : Nat} {c : Card} :
    c ∈ mkPairs pool idx ↔
      ∃ k, ∃ h : k < pool.length,
        c = cardA (idx + k) (pool[k]) ∨ c = cardB (idx + k) (pool[k]) := by
  induction pool generalizing idx with
  | nil => simp [mkPairs]
  | cons e rest ih =>
      simp only [mkPairs, List.mem_cons, ih]
      constructor
      · rintro (rfl | rfl | ⟨k, hk, hc⟩)
        · exact ⟨0, by simp, by simp⟩
        · exact ⟨0, by simp, by simp⟩
        · refine ⟨k + 1, by simpa using hk, ?_⟩
          simpa [Nat.add_comm, Nat.add_left_comm, Nat.add_assoc] using hc
      · rintro ⟨k, hk, hc⟩
        cases k with
        | zero => simp at hc; tauto
        | succ k =>
            refine Or.inr (Or.inr ⟨k, by simpa using hk, ?_⟩)
            simpa [Nat.add_comm, Nat.add_left_comm, Nat.add_assoc] using hc

theorem length_mkPairs (pool : List String) (idx : Nat) :
    (mkPairs pool idx).length = 2 * pool.length := by
  induction pool generalizing idx with
  | nil => simp [mkPairs]
  | cons e rest ih => simp [mkPairs, ih]; omega

theorem matched_mkPairs {pool : List String} {idx : Nat} {c : Card}
    (hc : c ∈ mkPairs pool idx) : c.matched = false := by
  rcases mem_mkPairs.mp hc with ⟨k, hk, rfl | rfl⟩ <;> rfl

theorem shape_mkPairs {pool : List String} {idx : Nat} {c : Card}
    (hc : c ∈ mkPairs pool idx) :
    ∃ k, ∃ h : k < pool.length, ∃ b : Bool,
      c.pairId = pidStr (idx + k) ∧ c.content = pool[k] ∧
        c.id = pidStr (idx + k) ++ (if b then "a" else "b") := by
  rcases mem_mkPairs.mp hc with ⟨k, hk, rfl | rfl⟩
  · exact ⟨k, hk, true, rfl, rfl, rfl⟩
  · exact ⟨k, hk, false, rfl, rfl, rfl⟩

theorem countP_mkPairs (pool : List String) (idx : Nat) (hb : idx + pool.length ≤ 29) :
    ∀ c ∈ mkPairs pool idx,
      (mkPairs pool idx).countP (fun c2 => c2.pairId == c.pairId) = 2 := by
  induction pool generalizing idx with
  | nil => simp [mkPairs]
  | cons e rest ih =>
      intro c hc
      have hidx : idx < 29 := by simp at hb; omega
      have htail : ∀ c2 ∈ mkPairs rest (idx + 1), c2.pairId ≠ pidStr idx := by
        intro c2 hc2 heq
        obtain ⟨k, hk, b, hpid, -, -⟩ := shape_mkPairs hc2
        have hk29 : idx + 1 + k < 29 := by simp at hb; omega
        have := pidStr_inj _ hk29 _ hidx (hpid ▸ heq)
        omega
      simp only [mkPairs, List.mem_cons] at hc
      rcases hc with rfl | rfl | hc
      · simp only [mkPairs, List.countP_cons]
        have h0 : (mkPairs rest (idx + 1)).countP
            (fun c2 => c2.pairId == (cardA idx e).pairId) = 0 := by
          rw [List.countP_eq_zero]
          intro c2 hc2
          simpa [cardA] using htail c2 hc2
        simp only [cardA, cardB] at h0 ⊢
        simp [h0]
      · simp only [mkPairs, List.countP_cons]
        have h0 : (mkPairs rest (idx + 1)).countP
            (fun c2 => c2.pairId == (cardB idx e).pairId) = 0 := by
          rw [List.countP_eq_zero]
          intro c2 hc2
          simpa [cardB] using htail c2 hc2
        simp only [cardA, cardB] at h0 ⊢
        simp [h0]
      · have hne : c.pairId ≠ pidStr idx := htail c hc
        simp only [mkPairs, List.countP_cons]
        have h2 := ih (idx + 1) (by simp at hb; omega) c hc
        simp [h2, cardA, cardB, hne, Ne.symm hne]

theorem nodup_ids_mkPairs (pool : List String) (idx : Nat) (hb : idx + pool.length ≤ 29) :
    ((mkPairs pool idx).map Card.id).Nodup := by
  induction pool generalizing idx with
  | nil => simp [mkPairs]
  | cons e rest ih =>
      have hidx : idx < 29 := by simp at hb; omega
      have htail : ∀ b : Bool, pidStr idx ++ (if b then "a" else "b") ∉
          (mkPairs rest (idx + 1)).map Card.id := by
        intro b hmem
        rcases List.mem_map.mp hmem with ⟨c2, hc2, hid⟩
        obtain ⟨k, hk, b2, -, -, hid2⟩ := shape_mkPairs hc2
        have hk29 : idx + 1 + k < 29 := by simp at hb; omega
        have := (cardId_inj _ hk29 _ hidx b2 b (by rw [← hid2, hid])).1
        omega
      simp only [mkPairs, List.map_cons, List.nodup_cons]
      refine ⟨?_, ?_, ih (idx + 1) (by simp at hb; omega)⟩
      · intro hmem
        rcases List.mem_cons.mp hmem with hab | hmem
        · have := (cardId_inj _ hidx _ hidx true false hab).2
          simp at this
        · exact htail true hmem
      · exact htail false

theorem content_mkPairs (pool : List String) (idx : Nat) (hb : idx + pool.length ≤ 29)
    (hnd : pool.Nodup) :
    ∀ c ∈ mkPairs pool idx, ∀ c2 ∈ mkPairs pool idx,
      (c.pairId = c2.pairId → c.content = c2.content) ∧
        (c.content = c2.content → c.pairId = c2.pairId) := by
  intro c hc c2 hc2
  obtain ⟨k, hk, b, hp, hcon, -⟩ := shape_mkPairs hc
  obtain ⟨k2, hk2, b2, hp2, hcon2, -⟩ := shape_mkPairs hc2
  have h1 : idx + k < 29 := by omega
  have h2 : idx + k2 < 29 := by omega
  constructor
  · intro hpe
    have := pidStr_inj _ h1 _ h2 (by rw [← hp, ← hp2, hpe])
    have hkk : k = k2 := by omega
    rw [hcon, hcon2]
    subst hkk
    rfl
  · intro hce
    have hkk : k = k2 := by
      have := hnd.getElem_inj_iff.mp (show pool[k] = pool[k2] by rw [← hcon, ← hcon2, hce])
      exact this
    rw [hp, hp2, hkk]

theorem pool_take_spec (r1 : Nat → Nat) (pairs : Nat) :
    ((shuffle r1 EMOJI_POOL).take pairs).length = min pairs 28 ∧
      ((shuffle r1 EMOJI_POOL).take pairs).Nodup := by
  constructor
  · rw [List.length_take, (shuffle_perm r1 EMOJI_POOL).length_eq, EMOJI_POOL_length]
  · exact ((List.take_sublist _ _)).nodup
      ((shuffle_perm r1 EMOJI_POOL).nodup_iff.mpr EMOJI_POOL_nodup)

theorem generateDeck_spec (r1 r2 : Nat → Nat) (pairs : Nat) :
    (generateDeck r1 r2 pairs).length = 2 * min pairs 28 ∧
      ((generateDeck r1 r2 pairs).map Card.id).Nodup ∧
      (∀ c ∈ generateDeck r1 r2 pairs,
        (generateDeck r1 r2 pairs).countP (fun c2 => c2.pairId == c.pairId) = 2) ∧
      (∀ c ∈ generateDeck r1 r2 pairs, ∀ c2 ∈ generateDeck r1 r2 pairs,
        (c.pairId = c2.pairId → c.content = c2.content) ∧
          (c.content = c2.content → c.pairId = c2.pairId)) ∧
      (∀ c ∈ generateDeck r1 r2 pairs, c.matched = false) := by
  obtain ⟨hlen, hnd⟩ := pool_take_spec r1 pairs
  have hb : 0 + ((shuffle r1 EMOJI_POOL).take pairs).length ≤ 29 := by omega
  have hperm : (generateDeck r1 r2 pairs).Perm
      (mkPairs ((shuffle r1 EMOJI_POOL).take pairs) 0) := shuffle_perm r2 _
  refine ⟨?_, ?_, ?_, ?_, ?_⟩
  · rw [hperm.length_eq, length_mkPairs, hlen]
  · exact (hperm.map Card.id).nodup_iff.mpr (nodup_ids_mkPairs _ 0 hb)
  · intro c hc
    rw [hperm.countP_eq]
    exact countP_mkPairs _ 0 hb c (hperm.mem_iff.mp hc)
  · intro c hc c2 hc2
    exact content_mkPairs _ 0 hb hnd c (hperm.mem_iff.mp hc) c2 (hperm.mem_iff.mp hc2)
  · intro c hc
    exact matched_mkPairs (hperm.mem_iff.mp hc)

theorem two_le_countP {α : Type} {l : List α} {p : α → Bool} {a b : α}
    (ha : a ∈ l) (hb : b ∈ l) (hne : a ≠ b) (hpa : p a) (hpb : p b) :
    2 ≤ l.countP p := by
  induction l with
  | nil => simp at ha
  | cons x rest ih =>
      rw [List.countP_cons]
      rcases List.mem_cons.mp ha with rfl | ha2
      · have hbr : b ∈ rest := by
          rcases List.mem_cons.mp hb with rfl | h
          · exact absurd rfl hne
          · exact h
        have h1 : 0 < rest.countP p := List.countP_pos_iff.mpr ⟨b, hbr, hpb⟩
        rw [if_pos hpa]
        omega
      · rcases List.mem_cons.mp hb with rfl | hb2
        · have h1 : 0 < rest.countP p := List.countP_pos_iff.mpr ⟨a, ha2, hpa⟩
          rw [if_pos hpb]
          omega
        · have := ih ha2 hb2
          omega

theorem countP_or_split {α : Type} (l : List α) (p q : α → Bool) :
    l.countP (fun a => p a || q a) = l.countP q + l.countP (fun a => p a && !q a) := by
  induction l with
  | nil => simp
  | cons x rest ih =>
      simp only [List.countP_cons, ih]
      cases hp : p x <;> cases hq : q x <;> simp [hp, hq] <;> omega

theorem find?_id_eq {deck : List Card} (hnd : (deck.map Card.id).Nodup)
    {c : Card} (hc : c ∈ deck) {x : String} (hx : c.id = x) :
    deck.find? (fun c2 => c2.id == x) = some c := by
  induction deck with
  | nil => simp at hc
  | cons d rest ih =>
      simp only [List.map_cons, List.nodup_cons] at hnd
      rcases List.mem_cons.mp hc with rfl | hc2
      · exact List.find?_cons_of_pos _ (by simp [hx])
      · have hne : ¬((fun c2 => c2.id == x) d = true) := by
          simp only [beq_iff_eq]
          intro h
          exact hnd.1 (h ▸ hx ▸ List.mem_map_of_mem Card.id hc2)
        have hstep : List.find? (fun c2 => c2.id == x) (d :: rest) =
            List.find? (fun c2 => c2.id == x) rest := List.find?_cons_of_neg rest hne
        exact hstep.trans (ih hnd.2 hc2)

/-- The difficulty presets of the `<select>` control. -/
inductive Difficulty where
  | easy
  | medium
  | hard
deriving DecidableEq

/-- `{ easy: 8, medium: 12, hard: 18 }`: the pair count of each difficulty. -/
def pairCount : Difficulty → Nat
  | .easy => 8
  | .medium => 12
  | .hard => 18

/-- The React state of a game session in `App`: the state variables touched
by flip resolution (`deck`, `flipped`, `moves`, `matches`, `seconds`,
`running`, `locked`, `focusedIndex`). -/
structure GameState where
  deck : List Card
  flipped : List String
  moves : Nat
  «matches» : Nat
  seconds : Nat
  running : Bool
  locked : Bool
  focusedIndex : Option Nat
deriving DecidableEq

/-- The synchronous part of `handleFlip` in `App.tsx`.  The two `setTimeout`
callbacks it schedules on a second reveal are modelled separately by
`resolveStep`. -/
def handleFlip (s : GameState) (cardId : String) : GameState :=
  if s.locked then s
  else
    match s.deck.find? (fun c => c.id == cardId) with
    | none => s
    | some card =>
      if card.matched then s
      else
        let s1 : GameState := { s with running := true }
        if s1.flipped.contains cardId then s1
        else
          match s1.flipped with
          | [] =>
              { s1 with
                flipped := [cardId]
                focusedIndex := some (s1.deck.findIdx (fun c => c.id == cardId)) }
          | [firstId] =>
              { s1 with
                flipped := [firstId, cardId]
                locked := true
                moves := s1.moves + 1 }
          | _ => s1

/-- `deck.map(c => c.pairId === pid ? {...c, matched: true} : c)`. -/
def markMatched (pid : String) (deck : List Card) : List Card :=
  deck.map (fun c => if c.pairId == pid then { c with matched := true } else c)

/-- The delayed outcome of a second reveal: the `setTimeout` callbacks of
`handleFlip` (match after ~600ms, mismatch after ~800ms).  `pairs` is the
session's pair count, used by the completion check `newMatchCount === pairs`. -/
def resolveStep (pairs : Nat) (s : GameState) : GameState :=
  match s.flipped with
  | [firstId, secondId] =>
    match s.deck.find? (fun c => c.id == firstId),
        s.deck.find? (fun c => c.id == secondId) with
    | some firstCard, some card =>
      if firstCard.pairId == card.pairId then
        let s1 : GameState :=
          { s with
            deck := markMatched card.pairId s.deck
            flipped := []
            «matches» := s.matches + 1
            locked := false }
        if s.matches + 1 = pairs then { s1 with running := false } else s1
      else { s with flipped := [], locked := false }
    | _, _ => s
  | _ => s

/-- One second of the `setInterval` timer while `running`. -/
def tickSec (s : GameState) : GameState := { s with seconds := s.seconds + 1 }

/-- The Start/Pause button: `setRunning(r => !r)` (the extra
`if (!running) setRunning(true)` uses the captured pre-click value, so the
net effect is a toggle). -/
def toggleRunning (s : GameState) : GameState := { s with running := !s.running }

/-- `restart(p)` with `p = pairCount d`, which is also how every session
starts (the difficulty effect calls `restart(map[difficulty])`). -/
def initState (d : Difficulty) (r1 r2 : Nat → Nat) : GameState :=
  { deck := generateDeck r1 r2 (pairCount d)
    flipped := []
    moves := 0
    «matches» := 0
    seconds := 0
    running := false
    locked := false
    focusedIndex := none }

/-- The discrete events that drive the game state: flip clicks, the delayed
resolution callbacks, timer ticks, the Start/Pause button and Restart. -/
inductive Step (d : Difficulty) : GameState → GameState → Prop
  | flip (s : GameState) (cid : String) : Step d s (handleFlip s cid)
  | resolve (s : GameState) : Step d s (resolveStep (pairCount d) s)
  | tick (s : GameState) : Step d s (tickSec s)
  | toggle (s : GameState) : Step d s (toggleRunning s)
  | restart (s : GameState) (r1 r2 : Nat → Nat) : Step d s (initState d r1 r2)

/-- States reachable from a fresh session at difficulty `d`. -/
def Reachable (d : Difficulty) (r1 r2 : Nat → Nat) (s : GameState) : Prop :=
  Relation.ReflTransGen (Step d) (initState d r1 r2) s

/-- The inductive invariant of a session with `P` pairs: the deck has `2P`
cards with distinct ids, every pair identity on exactly two cards, the match
counter counts half the matched cards, and the flipped list holds distinct
ids of unmatched cards of the deck. -/
def Inv (P : Nat) (s : GameState) : Prop :=
  s.deck.length = 2 * P ∧
    (s.deck.map Card.id).Nodup ∧
    (∀ c ∈ s.deck, s.deck.countP (fun c2 => c2.pairId == c.pairId) = 2) ∧
    2 * s.matches = s.deck.countP (fun c => c.matched) ∧
    (∀ cid ∈ s.flipped, ∃ c ∈ s.deck, c.id = cid ∧ c.matched = false) ∧
    s.flipped.Nodup

theorem pairCount_le (d : Difficulty) : pairCount d ≤ 28 := by
  cases d <;> simp [pairCount]

theorem inv_init (d : Difficulty) (r1 r2 : Nat → Nat) :
    Inv (pairCount d) (initState d r1 r2) := by
  obtain ⟨hlen, hnd, hcp, -, hm⟩ := generateDeck_spec r1 r2 (pairCount d)
  have hP := pairCount_le d
  refine ⟨?_, hnd, hcp, ?_, by simp [initState], by simp [initState]⟩
  · show (generateDeck r1 r2 (pairCount d)).length = 2 * pairCount d
    rw [hlen]
    omega
  · show 2 * 0 = (generateDeck r1 r2 (pairCount d)).countP (fun c => c.matched)
    rw [List.countP_eq_zero.mpr]
    intro c hc
    simp [hm c hc]

theorem inv_handleFlip {P : Nat} {s : GameState} (h : Inv P s) (cid : String) :
    Inv P (handleFlip s cid) := by
  obtain ⟨h1, h2, h3, h4, h5, h6⟩ := h
  unfold handleFlip
  split
  · exact ⟨h1, h2, h3, h4, h5, h6⟩
  split
  · exact ⟨h1, h2, h3, h4, h5, h6⟩
  next card hfind =>
    have hcardmem : card ∈ s.deck := List.mem_of_find?_eq_some hfind
    have hcardid : card.id = cid := by
      have := List.find?_some hfind
      simpa using this
    split
    · exact ⟨h1, h2, h3, h4, h5, h6⟩
    next hmat =>
      have hcardm : card.matched = false := by
        simpa using hmat
      dsimp only
      split
      · exact ⟨h1, h2, h3, h4, h5, h6⟩
      next hcont =>
        split
        next hnil =>
          refine ⟨h1, h2, h3, h4, ?_, by simp⟩
          intro x hx
          simp only [List.mem_singleton] at hx
          exact ⟨card, hcardmem, hx ▸ hcardid, hcardm⟩
        next firstId hone =>
          have hne : cid ≠ firstId := by
            intro heq
            apply hcont
            simp [hone, heq]
          refine ⟨h1, h2, h3, h4, ?_, by simp [hne.symm]⟩
          intro x hx
          rcases List.mem_cons.mp hx with rfl | hx2
          · exact h5 x (by simp [hone])
          · simp only [List.mem_singleton] at hx2
            exact ⟨card, hcardmem, hx2 ▸ hcardid, hcardm⟩
        next => exact ⟨h1, h2, h3, h4, h5, h6⟩

theorem countP_matched_markMatched (pid : String) (deck : List Card) :
    (markMatched pid deck).countP (fun c => c.matched) =
      deck.countP (fun c => c.matched) +
        deck.countP (fun c => c.pairId == pid && !c.matched) := by
  unfold markMatched
  rw [List.countP_map]
  have hfn : ((fun c : Card => c.matched) ∘
      fun c => if c.pairId == pid then { c with matched := true } else c) =
        fun c => (c.pairId == pid) || c.matched := by
    funext c
    by_cases hc : c.pairId = pid <;> simp [hc]
  rw [hfn, countP_or_split]

theorem ids_markMatched (pid : String) (deck : List Card) :
    (markMatched pid deck).map Card.id = deck.map Card.id := by
  unfold markMatched
  rw [List.map_map]
  congr 1
  funext c
  by_cases hc : c.pairId = pid <;> simp [hc]

theorem countP_pairId_markMatched (pid q : String) (deck : List Card) :
    (markMatched pid deck).countP (fun c2 => c2.pairId == q) =
      deck.countP (fun c2 => c2.pairId == q) := by
  unfold markMatched
  rw [List.countP_map]
  congr 1
  funext c
  by_cases hc : c.pairId = pid <;> simp [hc]

theorem inv_resolveStep {P : Nat} {s : GameState} (h : Inv P s) :
    Inv P (resolveStep P s) := by
  obtain ⟨h1, h2, h3, h4, h5, h6⟩ := h
  unfold resolveStep
  split
  case h_2 => exact ⟨h1, h2, h3, h4, h5, h6⟩
  case h_1 firstId secondId hflip =>
    split
    case h_2 => exact ⟨h1, h2, h3, h4, h5, h6⟩
    case h_1 firstCard card hf1 hf2 =>
      obtain ⟨c1, hc1mem, hc1id, hc1m⟩ := h5 firstId (by simp [hflip])
      obtain ⟨c2, hc2mem, hc2id, hc2m⟩ := h5 secondId (by simp [hflip])
      have he1 : firstCard = c1 := by
        have := find?_id_eq h2 hc1mem hc1id
        rw [hf1] at this
        exact Option.some.inj this
      have he2 : card = c2 := by
        have := find?_id_eq h2 hc2mem hc2id
        rw [hf2] at this
        exact Option.some.inj this
      rw [← he1] at hc1mem hc1id hc1m
      rw [← he2] at hc2mem hc2id hc2m
      have hne12 : firstId ≠ secondId := by
        rw [hflip] at h6
        simpa using (List.nodup_cons.mp h6).1
      have hcne : firstCard ≠ card := by
        intro hc
        exact hne12 (hc1id ▸ hc ▸ hc2id)
      split
      next hpideq =>
        have hpid1 : firstCard.pairId = card.pairId := by simpa using hpideq
        have hcount2 : s.deck.countP (fun c => c.pairId == card.pairId) = 2 := h3 card hc2mem
        have hlow : 2 ≤ s.deck.countP (fun c => c.pairId == card.pairId && !c.matched) := by
          refine two_le_countP hc1mem hc2mem hcne ?_ ?_
          · simp [hpid1, hc1m]
          · simp [hc2m]
        have hhigh : s.deck.countP (fun c => c.pairId == card.pairId && !c.matched) ≤
            s.deck.countP (fun c => c.pairId == card.pairId) := by
          apply List.countP_mono_left
          intro x hx hpx
          simp only [Bool.and_eq_true] at hpx
          exact hpx.1
        have hum : s.deck.countP (fun c => c.pairId == card.pairId && !c.matched) = 2 := by
          omega
        have hinv1 : Inv P
            { s with
              deck := markMatched card.pairId s.deck
              flipped := []
              «matches» := s.matches + 1
              locked := false } := by
          refine ⟨?_, ?_, ?_, ?_, by simp, by simp⟩
          · show (markMatched card.pairId s.deck).length = 2 * P
            rw [markMatched, List.length_map]
            exact h1
          · show ((markMatched card.pairId s.deck).map Card.id).Nodup
            rw [ids_markMatched]
            exact h2
          · show ∀ c ∈ markMatched card.pairId s.deck,
              (markMatched card.pairId s.deck).countP (fun c3 => c3.pairId == c.pairId) = 2
            intro c hc
            rcases List.mem_map.mp hc with ⟨c0, hc0, rfl⟩
            have hp : (if c0.pairId == card.pairId then { c0 with matched := true } else c0).pairId
                = c0.pairId := by
              by_cases hz : c0.pairId = card.pairId <;> simp [hz]
            rw [countP_pairId_markMatched, hp]
            exact h3 c0 hc0
          · show 2 * (s.matches + 1) = (markMatched card.pairId s.deck).countP fun c => c.matched
            rw [countP_matched_markMatched, hum, ← h4]
            ring
        split
        · exact ⟨hinv1.1, hinv1.2.1, hinv1.2.2.1, hinv1.2.2.2.1, by simp, by simp⟩
        · exact hinv1
      next => exact ⟨h1, h2, h3, h4, by simp, by simp⟩

theorem inv_step {d : Difficulty} {s s2 : GameState} (hs : Inv (pairCount d) s)
    (hstep : Step d s s2) : Inv (pairCount d) s2 := by
  cases hstep with
  | flip cid => exact inv_handleFlip hs cid
  | resolve => exact inv_resolveStep hs
  | tick => exact hs
  | toggle => exact hs
  | restart r1 r2 => exact inv_init d r1 r2

theorem inv_reachable {d : Difficulty} {r1 r2 : Nat → Nat} {s : GameState}
    (h : Reachable d r1 r2 s) : Inv (pairCount d) s := by
  induction h with
  | refl => exact inv_init d r1 r2
  | tail hsteps hstep ih => exact inv_step ih hstep

/-- The `stars` memo of `App`: JS number division `moves / pairs` is
modelled in `ℚ`, and the literal `1.2` as `6/5`. -/
def stars (moves pairs : Nat) : Nat :=
  if moves = 0 then 3
  else
    let ratio : ℚ := (moves : ℚ) / (pairs : ℚ)
    if ratio ≤ 6 / 5 then 3
    else if ratio ≤ 2 then 2
    else 1

/-- A client-side `Score` record; `date` is `new Date().toISOString()`. -/
structure Score where
  name : String
  seconds : Nat
  moves : Nat
  difficulty : Difficulty
  date : String
deriving DecidableEq

/-- The order sorted by in `saveScoreLocal`, from the comparator
`(a, b) => a.seconds - b.seconds || a.moves - b.moves`. -/
def scoreLe (a b : Score) : Prop :=
  a.seconds < b.seconds ∨ (a.seconds = b.seconds ∧ a.moves ≤ b.moves)

instance : DecidableRel scoreLe := fun a b => by
  unfold scoreLe
  infer_instance

instance : IsTotal Score scoreLe where
  total a b := by
    unfold scoreLe
    omega

instance : IsTrans Score scoreLe where
  trans a b c := by
    unfold scoreLe
    omega

/-- `saveScoreLocal` from `App.tsx`: push the score onto the cached board,
sort by (seconds, moves), trim to 20 entries, store.  The value returned is
the board written back to storage. -/
def saveScoreLocal (board : List Score) (s : Score) : List Score :=
  (List.insertionSort scoreLe (board ++ [s])).take 20

/-- `saveScoreRemote` from `App.tsx`: POST the score; on a network failure
(`ok = false`, the fetch throws) fall back to `saveScoreLocal`.  The result
is the local cache after the call. -/
def saveScoreRemote (ok : Bool) (board : List Score) (s : Score) : List Score :=
  if ok then board else saveScoreLocal board s

/-- The completion handler of `handleFlip`: `saveScoreRemote(s)` followed
unconditionally by `saveScoreLocal(s)` ("try to save remote, but keep local
fallback").  Returns the final local cache. -/
def recordScore (ok : Bool) (board : List Score) (s : Score) : List Score :=
  saveScoreLocal (saveScoreRemote ok board s) s

/-- `loadLeaderboard` from `App.tsx`: `stored` is the raw value under the
storage key (`none` when absent), `parse` abstracts `JSON.parse` cast to
`Score[]` (`none` when it throws).  A falsy raw value (absent or `""`) and
a parse failure both yield `[]` through the `try`/`catch`. -/
def loadLeaderboard (stored : Option String)
    (parse : String → Option (List Score)) : List Score :=
  match stored with
  | none => []
  | some raw =>
    if raw = "" then []
    else
      match parse raw with
      | some board => board
      | none => []

/-- A row of the `scores` table (`server/db.js`). -/
structure ScoreRow where
  name : String
  seconds : ℚ
  moves : ℚ
  difficulty : String
  created_at : Int
deriving DecidableEq

/-- The parsed body of `POST /api/scores`.  `none` models a missing field
or, for the numeric fields, a value with `typeof x !== 'number'`. -/
structure ScoreBody where
  name : Option String
  seconds : Option ℚ
  moves : Option ℚ
  difficulty : Option String

/-- `POST /api/scores` from `server/index.js`: returns the HTTP status and
the table after the request; `now` is the insertion timestamp.  The JS
falsiness tests `!name` and `!difficulty` also reject the empty string. -/
def postScores (table : List ScoreRow) (body : ScoreBody) (now : Int) :
    Nat × List ScoreRow :=
  match body.name, body.seconds, body.moves, body.difficulty with
  | some name, some seconds, some moves, some difficulty =>
    if name = "" ∨ difficulty = "" then (400, table)
    else if seconds < 0 ∨ seconds > 86400 ∨ moves < 0 ∨ moves > 10000 then (400, table)
    else (200, table ++ [{ name := name, seconds := seconds, moves := moves,
                           difficulty := difficulty, created_at := now }])
  | _, _, _, _ => (400, table)

/-- The order of `ORDER BY seconds ASC, moves ASC`. -/
def rowLe (a b : ScoreRow) : Prop :=
  a.seconds < b.seconds ∨ (a.seconds = b.seconds ∧ a.moves ≤ b.moves)

instance : DecidableRel rowLe := fun a b => by
  unfold rowLe
  infer_instance

instance : IsTotal ScoreRow rowLe where
  total a b := by
    unfold rowLe
    rcases lt_trichotomy a.seconds b.seconds with h | h | h
    · exact Or.inl (Or.inl h)
    · rcases le_total a.moves b.moves with hm | hm
      · exact Or.inl (Or.inr ⟨h, hm⟩)
      · exact Or.inr (Or.inr ⟨h.symm, hm⟩)
    · exact Or.inr (Or.inl h)

instance : IsTrans ScoreRow rowLe where
  trans a b c hab hbc := by
    unfold rowLe at hab hbc ⊢
    rcases hab with h1 | ⟨h1, h1m⟩ <;> rcases hbc with h2 | ⟨h2, h2m⟩
    · exact Or.inl (h1.trans h2)
    · exact Or.inl (h2 ▸ h1)
    · exact Or.inl (h1 ▸ h2)
    · exact Or.inr ⟨h1.trans h2, h1m.trans h2m⟩

/-- `parseInt(req.query.limit) || 20`: `limit` is the `parseInt` result,
`none` standing for an absent or non-numeric parameter (`NaN`).  Both `NaN`
and `0` are falsy, so both fall through to the default `20`. -/
def effLimit (limit : Option Int) : Int :=
  match limit with
  | some n => if n = 0 then 20 else n
  | none => 20

/-- SQLite `LIMIT n`: a negative `n` means "no limit". -/
def sqlLimit (n : Int) (l : List ScoreRow) : List ScoreRow :=
  if n < 0 then l else l.take n.toNat

/-- The two prepared `WHERE` clauses of `GET /api/leaderboard`: exact
difficulty match when one was supplied, and `created_at >= since`. -/
def leaderboardFilter (table : List ScoreRow) (difficulty : Option String)
    (since : Int) : List ScoreRow :=
  match difficulty with
  | some d => table.filter (fun r => decide (r.difficulty = d ∧ since ≤ r.created_at))
  | none => table.filter (fun r => decide (since ≤ r.created_at))

/-- `GET /api/leaderboard` from `server/index.js`: `WHERE` as above with
`since` 24 hours before `now`, then `ORDER BY seconds ASC, moves ASC`,
then `LIMIT`. -/
def leaderboardQuery (table : List ScoreRow) (difficulty : Option String)
    (limit : Option Int) (now : Int) : List ScoreRow :=
  sqlLimit (effLimit limit)
    (List.insertionSort rowLe (leaderboardFilter table difficulty (now - 24 * 60 * 60 * 1000)))

theorem mem_leaderboardFilter {table : List ScoreRow} {dq : Option String}
    {since : Int} {r : ScoreRow} (h : r ∈ leaderboardFilter table dq since) :
    r ∈ table ∧ since ≤ r.created_at ∧ ∀ d, dq = some d → r.difficulty = d := by
  cases dq with
  | none =>
      rw [leaderboardFilter] at h
      simp only [List.mem_filter, decide_eq_true_eq] at h
      exact ⟨h.1, h.2, fun d hd => Option.noConfusion hd⟩
  | some d0 =>
      rw [leaderboardFilter] at h
      simp only [List.mem_filter, decide_eq_true_eq] at h
      exact ⟨h.1, h.2.2, fun d hd => Option.some.inj hd ▸ h.2.1⟩

/-- C6: `POST /api/scores` rejects with status 400 any submission with a
missing name, a non-number `seconds` or `moves`, `seconds` outside
[0, 86400], `moves` outside [0, 10000], or a missing difficulty, and in all
those cases the stored table is returned unchanged; in particular
`seconds = -1` is rejected without mutation. -/
theorem C6_post_validation (table : List ScoreRow) (body : ScoreBody) (now : Int) :
    (body.name = none → postScores table body now = (400, table)) ∧
    (body.seconds = none → postScores table body now = (400, table)) ∧
    (body.moves = none → postScores table body now = (400, table)) ∧
    (body.difficulty = none → postScores table body now = (400, table)) ∧
    (∀ q : ℚ, body.seconds = some q → q < 0 ∨ 86400 < q →
      postScores table body now = (400, table)) ∧
    (∀ q : ℚ, body.moves = some q → q < 0 ∨ 10000 < q →
      postScores table body now = (400, table)) ∧
    (body.seconds = some (-1) → postScores table body now = (400, table)) := by
  obtain ⟨n, sec, mov, diff⟩ := body
  have hsec : ∀ q : ℚ, sec = some q → q < 0 ∨ 86400 < q →
      postScores table ⟨n, sec, mov, diff⟩ now = (400, table) := by
    rintro q rfl hq
    cases n with
    | none => rfl
    | some nm =>
      cases mov with
      | none => rfl
      | some mv =>
        cases diff with
        | none => rfl
        | some df =>
          unfold postScores
          dsimp only
          split
          · rfl
          · rw [if_pos (show q < 0 ∨ q > 86400 ∨ mv < 0 ∨ mv > 10000 by tauto)]
  have hmov : ∀ q : ℚ, mov = some q → q < 0 ∨ 10000 < q →
      postScores table ⟨n, sec, mov, diff⟩ now = (400, table) := by
    rintro q rfl hq
    cases n with
    | none => rfl
    | some nm =>
      cases sec with
      | none => rfl
      | some sc =>
        cases diff with
        | none => rfl
        | some df =>
          unfold postScores
          dsimp only
          split
          · rfl
          · rw [if_pos (show sc < 0 ∨ sc > 86400 ∨ q < 0 ∨ q > 10000 by tauto)]
  refine ⟨?_, ?_, ?_, ?_, hsec, hmov, ?_⟩
  · rintro rfl
    rfl
  · rintro rfl
    cases n <;> rfl
  · rintro rfl
    cases n <;> cases sec <;> rfl
  · rintro rfl
    cases n <;> cases sec <;> cases mov <;> rfl
  · intro h
    exact hsec (-1) h (Or.inl (by norm_num))

/-- A deliberately invalid submission with `seconds = -1`. -/
def negSecondsBody : ScoreBody :=
  { name := some "Ann", seconds := some (-1), moves := some 3,
    difficulty := some "easy" }

theorem C6_post_validation_witness :
    negSecondsBody.seconds = some (-1) ∧
      postScores [] negSecondsBody 0 = (400, []) :=
  ⟨rfl, (C6_post_validation [] negSecondsBody 0).2.2.2.2.2.2 rfl⟩

/-- C7: every row that `GET /api/leaderboard` returns was created within
the last 24 hours (never an older row), matches the requested difficulty
when one was given, the rows come back sorted by seconds ascending with
ties broken by moves ascending, and at most the effective limit of rows is
returned (20 when no limit was requested). -/
theorem C7_leaderboard_window (table : List ScoreRow) (dq : Option String)
    (limit : Option Int) (now : Int)
    (hnow : ∀ r ∈ table, r.created_at ≤ now)
    (hlim : 0 ≤ effLimit limit) :
    (∀ r ∈ leaderboardQuery table dq limit now,
      now - 24 * 60 * 60 * 1000 ≤ r.created_at ∧ r.created_at ≤ now) ∧
    (∀ r ∈ leaderboardQuery table dq limit now, ∀ d, dq = some d →
      r.difficulty = d) ∧
    (leaderboardQuery table dq limit now).Pairwise rowLe ∧
    (leaderboardQuery table dq limit now).length ≤ (effLimit limit).toNat ∧
    (limit = none → (leaderboardQuery table dq limit now).length ≤ 20) := by
  have hql : leaderboardQuery table dq limit now =
      (List.insertionSort rowLe
        (leaderboardFilter table dq (now - 24 * 60 * 60 * 1000))).take
          (effLimit limit).toNat := by
    rw [leaderboardQuery, sqlLimit, if_neg (not_lt.mpr hlim)]
  have hmem : ∀ r ∈ leaderboardQuery table dq limit now,
      r ∈ leaderboardFilter table dq (now - 24 * 60 * 60 * 1000) := by
    intro r hr
    rw [hql] at hr
    exact (List.perm_insertionSort rowLe _).mem_iff.mp
      ((List.take_sublist _ _).mem hr)
  refine ⟨?_, ?_, ?_, ?_, ?_⟩
  · intro r hr
    obtain ⟨hrt, hsince, -⟩ := mem_leaderboardFilter (hmem r hr)
    exact ⟨hsince, hnow r hrt⟩
  · intro r hr d hd
    exact (mem_leaderboardFilter (hmem r hr)).2.2 d hd
  · rw [hql]
    exact (List.sorted_insertionSort rowLe _).sublist (List.take_sublist _ _)
  · rw [hql, List.length_take]
    omega
  · rintro rfl
    rw [hql, List.length_take]
    have : (effLimit none).toNat = 20 := rfl
    omega

/-- A sample stored row used in the concrete witnesses below. -/
def sampleRow : ScoreRow :=
  { name := "Ann", seconds := 30, moves := 10, difficulty := "easy",
    created_at := 1000 }

theorem C7_leaderboard_window_witness :
    (∀ r ∈ [sampleRow], r.created_at ≤ 1000) ∧ 0 ≤ effLimit none ∧
      ∀ r ∈ leaderboardQuery [sampleRow] none none 1000,
        1000 - 24 * 60 * 60 * 1000 ≤ r.created_at ∧ r.created_at ≤ 1000 :=
  ⟨by decide, by decide,
    (C7_leaderboard_window [sampleRow] none none 1000 (by decide) (by decide)).1⟩

/-- C9: local-cache retrieval is total and never fails: an absent stored
value or one on which parsing throws yields the empty list, and otherwise
the parsed list is returned. -/
theorem C9_load_leaderboard (stored : Option String)
    (parse : String → Option (List Score)) :
    (stored = none → loadLeaderboard stored parse = []) ∧
    (∀ raw, stored = some raw → parse raw = none →
      loadLeaderboard stored parse = []) ∧
    (∀ raw board, stored = some raw → raw ≠ "" → parse raw = some board →
      loadLeaderboard stored parse = board) := by
  refine ⟨?_, ?_, ?_⟩
  · rintro rfl
    rfl
  · rintro raw rfl hp
    unfold loadLeaderboard
    dsimp only
    split
    · rfl
    · rw [hp]
  · rintro raw board rfl hne hp
    unfold loadLeaderboard
    dsimp only
    rw [if_neg hne, hp]

theorem C9_load_leaderboard_witness :
    loadLeaderboard none (fun _ => none) = [] ∧
      ((some "corrupted json" : Option String) = some "corrupted json" ∧
        loadLeaderboard (some "corrupted json") (fun _ => none) = []) :=
  ⟨(C9_load_leaderboard none (fun _ => none)).1 rfl,
    rfl, (C9_load_leaderboard (some "corrupted json") (fun _ => none)).2.1
      "corrupted json" rfl rfl⟩

/-- C10: an absent, non-numeric (`NaN`) or zero `limit` falls back to the
default of 20, so a request with `limit=0` behaves exactly like the default
and cannot return zero rows: on a one-row table it returns that row. -/
theorem C10_limit_default (table : List ScoreRow) (dq : Option String) (now : Int) :
    effLimit none = 20 ∧ effLimit (some 0) = 20 ∧
    leaderboardQuery table dq (some 0) now = leaderboardQuery table dq none now ∧
    (leaderboardQuery table dq (some 0) now).length ≤ 20 ∧
    leaderboardQuery [sampleRow] none (some 0) sampleRow.created_at = [sampleRow] := by
  refine ⟨rfl, rfl, rfl, ?_, by decide⟩
  rw [leaderboardQuery, sqlLimit, if_neg (by decide)]
  rw [List.length_take]
  have : (effLimit (some 0)).toNat = 20 := rfl
  omega

/-- C1: for any requested pair count `P` within the 28-glyph pool,
`generateDeck` returns exactly `2P` cards; each pair identity appears on
exactly two cards; the two cards of a pair carry the same symbol; no symbol
repeats across distinct pairs; and a request beyond the pool size clamps to
the pool size, yielding `2 · 28` cards. -/
theorem C1_deck_generation (r1 r2 : Nat → Nat) (P : Nat) :
    (P ≤ EMOJI_POOL.length → (generateDeck r1 r2 P).length = 2 * P) ∧
    (EMOJI_POOL.length < P →
      (generateDeck r1 r2 P).length = 2 * EMOJI_POOL.length) ∧
    (∀ c ∈ generateDeck r1 r2 P,
      (generateDeck r1 r2 P).countP (fun c2 => c2.pairId == c.pairId) = 2) ∧
    (∀ c ∈ generateDeck r1 r2 P, ∀ c2 ∈ generateDeck r1 r2 P,
      c.pairId = c2.pairId → c.content = c2.content) ∧
    (∀ c ∈ generateDeck r1 r2 P, ∀ c2 ∈ generateDeck r1 r2 P,
      c.content = c2.content → c.pairId = c2.pairId) := by
  obtain ⟨hlen, -, hcp, hcontent, -⟩ := generateDeck_spec r1 r2 P
  rw [EMOJI_POOL_length]
  refine ⟨?_, ?_, hcp, ?_, ?_⟩
  · intro h
    rw [hlen]
    omega
  · intro h
    rw [hlen]
    omega
  · intro c hc c2 hc2 h
    exact (hcontent c hc c2 hc2).1 h
  · intro c hc c2 hc2 h
    exact (hcontent c hc c2 hc2).2 h

theorem C1_deck_generation_witness :
    (3 ≤ EMOJI_POOL.length ∧
      (generateDeck (fun _ => 0) (fun _ => 0) 3).length = 2 * 3) ∧
    (EMOJI_POOL.length < 100 ∧
      (generateDeck (fun _ => 0) (fun _ => 0) 100).length = 2 * EMOJI_POOL.length) :=
  ⟨⟨by decide, (C1_deck_generation (fun _ => 0) (fun _ => 0) 3).1 (by decide)⟩,
    ⟨by decide, (C1_deck_generation (fun _ => 0) (fun _ => 0) 100).2.1 (by decide)⟩⟩

/-- C2: the star rating is a deterministic pure function of the move count
`M` and pair count `P`: 3 when `M = 0`, otherwise 3 when `M/P ≤ 1.2`, 2
when `1.2 < M/P ≤ 2`, 1 when `2 < M/P`; in particular `(0, P) ↦ 3`,
`(10, 10) ↦ 3`, `(15, 10) ↦ 2`, `(25, 10) ↦ 1`. -/
theorem C2_star_rating (M P : Nat) (hP : 0 < P) :
    (M = 0 → stars M P = 3) ∧
    (M ≠ 0 → (M : ℚ) / P ≤ 6 / 5 → stars M P = 3) ∧
    (M ≠ 0 → 6 / 5 < (M : ℚ) / P → (M : ℚ) / P ≤ 2 → stars M P = 2) ∧
    (M ≠ 0 → 2 < (M : ℚ) / P → stars M P = 1) ∧
    stars 0 P = 3 ∧ stars 10 10 = 3 ∧ stars 15 10 = 2 ∧ stars 25 10 = 1 := by
  have hbody : ∀ m : Nat, m ≠ 0 → stars m P =
      (if (m : ℚ) / P ≤ 6 / 5 then 3 else if (m : ℚ) / P ≤ 2 then 2 else 1) := by
    intro m hm
    rw [stars, if_neg hm]
  refine ⟨?_, ?_, ?_, ?_, ?_, ?_, ?_, ?_⟩
  · intro h
    rw [stars, if_pos h]
  · intro hM hle
    rw [hbody M hM, if_pos hle]
  · intro hM hgt hle
    rw [hbody M hM, if_neg (not_le.mpr hgt), if_pos hle]
  · intro hM hgt
    rw [hbody M hM, if_neg, if_neg (not_le.mpr hgt)]
    exact not_le.mpr (lt_trans (by norm_num) hgt)
  · rw [stars, if_pos rfl]
  · norm_num [stars]
  · norm_num [stars]
  · norm_num [stars]

theorem C2_star_rating_witness :
    0 < 10 ∧ stars 10 10 = 3 ∧ stars 15 10 = 2 ∧ stars 25 10 = 1 ∧
      0 < 5 ∧ stars 0 5 = 3 :=
  ⟨by decide, (C2_star_rating 10 10 (by decide)).2.2.2.2.2.1,
    (C2_star_rating 15 10 (by decide)).2.2.2.2.2.2.1,
    (C2_star_rating 25 10 (by decide)).2.2.2.2.2.2.2,
    by decide, (C2_star_rating 0 5 (by decide)).1 rfl⟩

/-- A sample completed-session score used in the concrete statements
below. -/
def sampleScore : Score :=
  { name := "Player", seconds := 10, moves := 5, difficulty := .easy,
    date := "2026-01-01T00:00:00.000Z" }

/-- C8 counterexample: after a completed session whose remote submission
fails, the score is written to the local cache twice — once by the fallback
in `saveScoreRemote`'s catch and once by the unconditional
`saveScoreLocal` — so it appears twice, not exactly once as claimed. -/
theorem C8_dual_write_counterexample :
    recordScore false [] sampleScore = [sampleScore, sampleScore] ∧
      (recordScore false [] sampleScore).count sampleScore = 2 ∧
      (recordScore true [] sampleScore).count sampleScore = 1 := by
  refine ⟨by decide, by decide, by decide⟩

theorem count_saveScoreLocal (board : List Score) (s : Score)
    (h : board.length ≤ 19) :
    (saveScoreLocal board s).count s = board.count s + 1 ∧
      (saveScoreLocal board s).length = board.length + 1 := by
  unfold saveScoreLocal
  have hlen : (List.insertionSort scoreLe (board ++ [s])).length =
      board.length + 1 := by
    rw [(List.perm_insertionSort scoreLe _).length_eq, List.length_append,
      List.length_singleton]
  rw [List.take_of_length_le (by omega)]
  refine ⟨?_, hlen⟩
  rw [(List.perm_insertionSort scoreLe _).count_eq, List.count_append]
  simp

/-- C8 (amended): one local save is always performed, and on a network
failure the fallback save runs as well, so — as long as the cache is small
enough that the 20-entry trim drops nothing — the completed session's score
appears in the local cache exactly once when the remote submission
succeeded and exactly twice when it failed; no failure is ever surfaced. -/
theorem C8_dual_write_amended (ok : Bool) (board : List Score) (s : Score)
    (hlen : board.length ≤ 18) :
    (recordScore ok board s).count s =
      board.count s + (if ok then 1 else 2) := by
  unfold recordScore saveScoreRemote
  cases ok with
  | true =>
      rw [if_pos rfl, if_pos rfl]
      exact (count_saveScoreLocal board s (by omega)).1
  | false =>
      rw [if_neg (by simp), if_neg (by simp)]
      obtain ⟨hc1, hl1⟩ := count_saveScoreLocal board s (by omega)
      obtain ⟨hc2, -⟩ := count_saveScoreLocal (saveScoreLocal board s) s (by omega)
      rw [hc2, hc1]

theorem C8_dual_write_amended_witness :
    ([] : List Score).length ≤ 18 ∧
      (recordScore false [] sampleScore).count sampleScore =
        ([] : List Score).count sampleScore + 2 := by
  refine ⟨by decide, ?_⟩
  have h := C8_dual_write_amended false [] sampleScore (by decide)
  simpa using h

/-- A reachable paused state with one card flipped: flip the first card of
one pair, then press Pause. -/
def pausedOneFlipped : GameState :=
  { deck := [cardA 0 "🍎", cardB 0 "🍎"]
    flipped := [(cardA 0 "🍎").id]
    moves := 0
    «matches» := 0
    seconds := 0
    running := false
    locked := false
    focusedIndex := some 0 }

/-- C3 counterexample: in a paused state whose sole flipped card is
re-flipped, `handleFlip` runs `if (!running) setRunning(true)` before the
`flipped.includes` early return, so the `running` flag changes and the
state is not left unchanged. -/
theorem C3_flip_noop_counterexample :
    (cardA 0 "🍎").matched = false ∧
      pausedOneFlipped.flipped = [(cardA 0 "🍎").id] ∧
      pausedOneFlipped.locked = false ∧
      handleFlip pausedOneFlipped (cardA 0 "🍎").id ≠ pausedOneFlipped := by
  refine ⟨rfl, rfl, rfl, by decide⟩

/-- C3 (amended): a flip while locked or on a matched card leaves the state
entirely unchanged; a flip on a card already in the flipped set (in
particular the sole flipped card) leaves deck, flipped, moves, matches,
seconds, locked and focus unchanged but sets `running` to `true` — a real
change exactly when the game was paused. -/
theorem C3_flip_noop_amended (s : GameState) (cid : String) :
    (s.locked = true → handleFlip s cid = s) ∧
    (∀ c, s.deck.find? (fun c2 => c2.id == cid) = some c → c.matched = true →
      handleFlip s cid = s) ∧
    (s.locked = false → ∀ c, s.deck.find? (fun c2 => c2.id == cid) = some c →
      c.matched = false → cid ∈ s.flipped →
      handleFlip s cid = { s with running := true }) := by
  refine ⟨?_, ?_, ?_⟩
  · intro h
    unfold handleFlip
    rw [if_pos h]
  · intro c hf hm
    unfold handleFlip
    split
    · rfl
    · rw [hf]
      dsimp only
      rw [if_pos hm]
  · intro hl c hf hm hmem
    unfold handleFlip
    rw [if_neg (by simp [hl]), hf]
    dsimp only
    rw [if_neg (by simp [hm]), if_pos (by simpa using hmem)]

theorem C3_flip_noop_amended_witness :
    pausedOneFlipped.locked = false ∧
      handleFlip pausedOneFlipped (cardA 0 "🍎").id =
        { pausedOneFlipped with running := true } ∧
      handleFlip { pausedOneFlipped with locked := true } (cardA 0 "🍎").id =
        { pausedOneFlipped with locked := true } :=
  ⟨rfl,
    (C3_flip_noop_amended pausedOneFlipped (cardA 0 "🍎").id).2.2 rfl
      (cardA 0 "🍎") (by decide) rfl (by decide),
    (C3_flip_noop_amended { pausedOneFlipped with locked := true }
      (cardA 0 "🍎").id).1 rfl⟩

/-- The guards under which a flip click is the second reveal of a
pair-comparison attempt: not locked, the card exists and is unmatched and
not already flipped, and exactly one card is currently flipped. -/
def isSecondReveal (s : GameState) (cid : String) : Bool :=
  !s.locked &&
    (match s.deck.find? (fun c2 => c2.id == cid) with
     | some c => !c.matched && !(s.flipped.contains cid) && s.flipped.length == 1
     | none => false)

theorem moves_handleFlip (s : GameState) (cid : String) :
    (handleFlip s cid).moves =
      if isSecondReveal s cid then s.moves + 1 else s.moves := by
  unfold handleFlip isSecondReveal
  split
  next hl => simp [hl]
  next hl =>
    have hl3 : s.locked = false := by simpa using hl
    split
    next hfind => simp [hfind]
    next card hfind =>
      rw [hfind]
      dsimp only
      by_cases hm : card.matched
      · simp [hm]
      · have hm2 : card.matched = false := by simpa using hm
        by_cases hcont : s.flipped.contains cid
        · have hmem : cid ∈ s.flipped := by simpa using hcont
          simp [hm2, hmem, hl3]
        · have hnmem : cid ∉ s.flipped := by simpa using hcont
          rcases hfl : s.flipped with - | ⟨f, rest⟩
          · rw [hfl] at hnmem
            simp [hm2, hl3, hfl, hnmem]
          · rcases rest with - | ⟨g, rest2⟩
            · rw [hfl] at hnmem
              have hne : cid ≠ f := by simpa using hnmem
              simp [hm2, hl3, hfl, hne, hnmem]
            · rw [hfl] at hnmem
              simp [hm2, hl3, hfl, hnmem]

/-- C4: the move counter increases by exactly 1 on a two-card reveal,
independent of whether the cards match (the outcome plays no part in
`isSecondReveal`), by 0 on every other flip event, and the delayed
match/mismatch resolutions never change it. -/
theorem C4_move_counter (s : GameState) (cid : String) (P : Nat) :
    (isSecondReveal s cid = true → (handleFlip s cid).moves = s.moves + 1) ∧
    (isSecondReveal s cid = false → (handleFlip s cid).moves = s.moves) ∧
    (resolveStep P s).moves = s.moves := by
  refine ⟨?_, ?_, ?_⟩
  · intro h
    rw [moves_handleFlip, if_pos h]
  · intro h
    rw [moves_handleFlip, if_neg (by simp [h])]
  · unfold resolveStep
    split
    · split
      · split
        · dsimp only
          split <;> rfl
        · rfl
      · rfl
    · rfl

theorem C4_move_counter_witness :
    isSecondReveal pausedOneFlipped (cardB 0 "🍎").id = true ∧
      (handleFlip pausedOneFlipped (cardB 0 "🍎").id).moves =
        pausedOneFlipped.moves + 1 :=
  ⟨by decide,
    (C4_move_counter pausedOneFlipped (cardB 0 "🍎").id 1).1 (by decide)⟩

/-- C5: in every reachable state of a session, the match counter equals the
session's pair count exactly when every card of the deck is matched. -/
theorem C5_completion_iff_all_matched (d : Difficulty) (r1 r2 : Nat → Nat)
    (s : GameState) (h : Reachable d r1 r2 s) :
    s.matches = pairCount d ↔ ∀ c ∈ s.deck, c.matched = true := by
  obtain ⟨h1, -, -, h4, -, -⟩ := inv_reachable h
  constructor
  · intro hm
    have hc : s.deck.countP (fun c => c.matched) = s.deck.length := by omega
    intro c hcm
    exact List.countP_eq_length.mp hc c hcm
  · intro hall
    have hc : s.deck.countP (fun c => c.matched) = s.deck.length :=
      List.countP_eq_length.mpr (fun c hcm => hall c hcm)
    omega

theorem C5_completion_iff_all_matched_witness :
    ((initState Difficulty.easy (fun _ => 0) (fun _ => 0)).matches =
        pairCount Difficulty.easy ↔
      ∀ c ∈ (initState Difficulty.easy (fun _ => 0) (fun _ => 0)).deck,
        c.matched = true) :=
  C5_completion_iff_all_matched Difficulty.easy (fun _ => 0) (fun _ => 0) _
    Relation.ReflTransGen.refl

end Concentration
